import Mathlib

/-!
Shallow embedding of the todo application controller (`script.js`, canonical
full-featured version). Pure functions of the source become Lean functions;
the controller's mutable fields `this.todos` and `this.editingId` become an
explicit `AppState` record threaded through the operations; browser inputs
(the text field's value, `generateId()`, `new Date().toISOString()`,
`confirm(...)`) become explicit parameters.
-/

namespace MyTodo

/-- CONFIG.MAX_TODO_LENGTH from `script.js`. -/
def MAX_TODO_LENGTH : Nat := 100

/-- JS `String.prototype.trim()`: strip whitespace from both ends. -/
def jsTrim (s : String) : String :=
  ⟨((s.data.dropWhile Char.isWhitespace).reverse.dropWhile Char.isWhitespace).reverse⟩

/-- JS `String.prototype.toLowerCase()` (ASCII range, which covers the texts
this development evaluates). -/
def jsToLower (s : String) : String :=
  ⟨s.data.map Char.toLower⟩

/-- A todo item, as constructed by `addTodo`: `{ id, text, createdAt, completed }`,
with `updatedAt` added by `saveEdit`. -/
structure Todo where
  id : String
  text : String
  createdAt : String
  updatedAt : Option String := none
  completed : Bool := false
deriving Repr, DecidableEq

/-- Result of `Utils.validateTodoText`: either `{valid: false, error}` or
`{valid: true, text}`. -/
inductive ValidationResult where
  | invalid (error : String)
  | valid (text : String)
deriving Repr, DecidableEq

/-- `Utils.validateTodoText`: trims, rejects empty (JS `!trimmed` is true exactly
for the empty string) and rejects length over `CONFIG.MAX_TODO_LENGTH`. -/
def validateTodoText (text : String) : ValidationResult :=
  let trimmed := jsTrim text
  if trimmed = "" then .invalid "Todo text cannot be empty"
  else if trimmed.length > MAX_TODO_LENGTH then
    .invalid "Todo text cannot exceed 100 characters"
  else .valid trimmed

/-- `Utils.isDuplicate`: `todos.some(todo => todo.id !== excludeId &&
todo.text.toLowerCase() === text.toLowerCase())`. The JS `excludeId` is `null`
or an id string, modelled as `Option String`; comparing a string id against
`null` with `!==` is always true, matching `some todo.id != none`. -/
def isDuplicate (text : String) (todos : List Todo)
    (excludeId : Option String := none) : Bool :=
  todos.any fun todo =>
    (some todo.id != excludeId) && (jsToLower todo.text == jsToLower text)

/-- Controller state: `this.todos` and `this.editingId`. -/
structure AppState where
  todos : List Todo
  editingId : Option String
deriving Repr, DecidableEq

/-- The constructor state: `this.todos = []; this.editingId = null`. -/
def initialState : AppState := { todos := [], editingId := none }

/-- `TodoApp.addTodo`: validate the raw input, reject duplicates, otherwise
`unshift` a new todo `{ id: generateId(), text, createdAt, completed: false }`.
The generated id and timestamp are parameters `newId` and `now`. -/
def addTodo (inputValue newId now : String) (s : AppState) : AppState :=
  match validateTodoText inputValue with
  | .invalid _ => s
  | .valid text =>
    if isDuplicate text s.todos then s
    else { s with todos :=
      { id := newId, text := text, createdAt := now, completed := false } :: s.todos }

/-- `TodoApp.deleteTodo`: `findIndex` on id, return if `-1`, else `splice`
out that single index. `editingId` is not touched. -/
def deleteTodo (id : String) (s : AppState) : AppState :=
  match s.todos.findIdx? (fun todo => todo.id == id) with
  | none => s
  | some i => { s with todos := s.todos.eraseIdx i }

/-- In-place update `this.todos[i] = f(this.todos[i])` of a list at an index. -/
def modifyIdx (f : Todo → Todo) : List Todo → Nat → List Todo
  | [], _ => []
  | t :: ts, 0 => f t :: ts
  | t :: ts, n + 1 => t :: modifyIdx f ts n

/-- `TodoApp.startEdit`: sets `this.editingId = id`. -/
def startEdit (id : String) (s : AppState) : AppState :=
  { s with editingId := some id }

/-- `TodoApp.saveEdit`: the edit input `[data-edit-id=id]` exists in the DOM
exactly when the render emitted an edit view, i.e. when `editingId === id`,
so `if (!editInput) return` becomes the first guard. Then validate, check
duplicates excluding `id`, `findIndex`, assign `text` and `updatedAt` in
place, and clear `editingId`. -/
def saveEdit (id inputValue now : String) (s : AppState) : AppState :=
  if s.editingId ≠ some id then s
  else
    match validateTodoText inputValue with
    | .invalid _ => s
    | .valid text =>
      if isDuplicate text s.todos (some id) then s
      else
        match s.todos.findIdx? (fun todo => todo.id == id) with
        | none => s
        | some i =>
          { todos := modifyIdx
              (fun todo => { todo with text := text, updatedAt := some now })
              s.todos i,
            editingId := none }

/-- `TodoApp.cancelEdit`: clears `editingId`. -/
def cancelEdit (s : AppState) : AppState :=
  { s with editingId := none }

/-- `TodoApp.clearAll`: no-op (with a notification) on an empty list; otherwise
asks `confirm(...)` — modelled by the `confirmed` parameter — and on confirmation
empties the list and clears `editingId`. -/
def clearAll (confirmed : Bool) (s : AppState) : AppState :=
  if s.todos.length = 0 then s
  else if confirmed then { todos := [], editingId := none } else s

/-- Remove the first element satisfying `p` (the combined effect of
`findIndex` + `splice(i, 1)`); identity when nothing matches. -/
def removeFirst (p : Todo → Bool) : List Todo → List Todo
  | [] => []
  | t :: ts => if p t then ts else t :: removeFirst p ts

/-- Update the first element satisfying `p` (the combined effect of
`findIndex` + in-place field assignment); identity when nothing matches. -/
def updateFirst (p : Todo → Bool) (f : Todo → Todo) : List Todo → List Todo
  | [] => []
  | t :: ts => if p t then f t :: ts else t :: updateFirst p f ts

/-- The double quote character, `"`. -/
def quoteChar : Char := Char.ofNat 34

/-- The apostrophe character. -/
def aposChar : Char := Char.ofNat 39

/-- One global single-character regex replacement, `str.replace(/c/g, rep)`. -/
def replaceAllChar (c : Char) (rep : List Char) (s : List Char) : List Char :=
  s.flatMap fun x => if x = c then rep else [x]

/-- `Utils.escapeAttribute`: five sequential global replacements, `&` first,
then `<`, `>`, `"`, `'`, each by its HTML entity. -/
def escapeAttribute (text : String) : String :=
  ⟨replaceAllChar aposChar ['&', '#', '3', '9', ';']
    (replaceAllChar quoteChar ['&', 'q', 'u', 'o', 't', ';']
      (replaceAllChar '>' ['&', 'g', 't', ';']
        (replaceAllChar '<' ['&', 'l', 't', ';']
          (replaceAllChar '&' ['&', 'a', 'm', 'p', ';'] text.data))))⟩

/-- The per-character entity translation that `escapeAttribute` realises:
each of the five special characters goes to its HTML entity, every other
character is kept. -/
def entityOf (c : Char) : List Char :=
  if c = '&' then ['&', 'a', 'm', 'p', ';']
  else if c = '<' then ['&', 'l', 't', ';']
  else if c = '>' then ['&', 'g', 't', ';']
  else if c = quoteChar then ['&', 'q', 'u', 'o', 't', ';']
  else if c = aposChar then ['&', '#', '3', '9', ';']
  else [c]

/-- A parsed JSON value, as produced by a successful `JSON.parse`. Only the
array/non-array distinction matters to `loadTodos`; array elements are kept
untyped. -/
inductive JValue where
  | null
  | bool (b : Bool)
  | num (n : Int)
  | str (s : String)
  | arr (elems : List JValue)
  | obj

/-- `StorageService.load(key, defaultValue = [])`: `localStorage.getItem`
yields `item : Option String` (`none` = key missing); JS `item ? JSON.parse(item)
: defaultValue` treats `null` and `""` as falsy; `JSON.parse` is modelled by an
abstract `parse` returning `none` where the real one throws, and the
surrounding `try/catch` turns that into the default `[]`. -/
def StorageService_load (parse : String → Option JValue) (item : Option String) :
    JValue :=
  match item with
  | none => .arr []
  | some raw =>
    if raw = "" then .arr []
    else
      match parse raw with
      | none => .arr []
      | some v => v

/-- `TodoApp.loadTodos`: assign the loaded value, then replace it with `[]`
whenever `Array.isArray` fails. -/
def TodoApp_loadTodos (parse : String → Option JValue) (item : Option String) :
    List JValue :=
  match StorageService_load parse item with
  | .arr elems => elems
  | _ => []

/-- No two items share an id (spec §3: `id: string (unique, generated)`). -/
def IdsNodup (l : List Todo) : Prop :=
  l.Pairwise fun a b => a.id ≠ b.id

/-- No two items share the same case-insensitive text (spec §3 invariant). -/
def TextsNodup (l : List Todo) : Prop :=
  l.Pairwise fun a b => jsToLower a.text ≠ jsToLower b.text

/-- States reachable from the constructor state by controller operations.
The `add` step carries the uniqueness of `Utils.generateId` (spec §3:
`id: string (unique, generated)`); the `start` step carries that the edit
button dispatching `startEdit` exists only inside a rendered todo item, so
its id is in the list. `del` is unrestricted: `deleteTodo` is a public
method callable with any id. -/
inductive Reachable : AppState → Prop where
  | init : Reachable initialState
  | add (inputValue newId now : String) {s : AppState} : Reachable s →
      (∀ t ∈ s.todos, t.id ≠ newId) → Reachable (addTodo inputValue newId now s)
  | del (id : String) {s : AppState} : Reachable s → Reachable (deleteTodo id s)
  | start (id : String) {s : AppState} : Reachable s →
      (∃ t ∈ s.todos, t.id = id) → Reachable (startEdit id s)
  | save (id inputValue now : String) {s : AppState} : Reachable s →
      Reachable (saveEdit id inputValue now s)
  | cancel {s : AppState} : Reachable s → Reachable (cancelEdit s)
  | clear (confirmed : Bool) {s : AppState} : Reachable s →
      Reachable (clearAll confirmed s)

/-- Reachability restricted to runs that never delete the item currently
being edited (the item in edit mode renders without a delete button, so the
primary UI only deletes other items). -/
inductive ReachableSafe : AppState → Prop where
  | init : ReachableSafe initialState
  | add (inputValue newId now : String) {s : AppState} : ReachableSafe s →
      (∀ t ∈ s.todos, t.id ≠ newId) →
      ReachableSafe (addTodo inputValue newId now s)
  | del (id : String) {s : AppState} : ReachableSafe s →
      s.editingId ≠ some id → ReachableSafe (deleteTodo id s)
  | start (id : String) {s : AppState} : ReachableSafe s →
      (∃ t ∈ s.todos, t.id = id) → ReachableSafe (startEdit id s)
  | save (id inputValue now : String) {s : AppState} : ReachableSafe s →
      ReachableSafe (saveEdit id inputValue now s)
  | cancel {s : AppState} : ReachableSafe s → ReachableSafe (cancelEdit s)
  | clear (confirmed : Bool) {s : AppState} : ReachableSafe s →
      ReachableSafe (clearAll confirmed s)

/-! Characterisations of the validators. -/

lemma validateTodoText_valid_of (input : String) (h1 : jsTrim input ≠ "")
    (h2 : (jsTrim input).length ≤ MAX_TODO_LENGTH) :
    validateTodoText input = .valid (jsTrim input) := by
  simp only [validateTodoText]
  rw [if_neg h1, if_neg (by omega)]

lemma validateTodoText_valid_inv {input t : String}
    (h : validateTodoText input = .valid t) :
    t = jsTrim input ∧ jsTrim input ≠ "" ∧ (jsTrim input).length ≤ MAX_TODO_LENGTH := by
  simp only [validateTodoText] at h
  split at h
  · exact absurd h (by simp)
  · split at h
    · exact absurd h (by simp)
    · rename_i h1 h2
      cases h
      exact ⟨rfl, h1, by omega⟩

lemma validateTodoText_invalid_of_empty {input : String} (h : jsTrim input = "") :
    validateTodoText input = .invalid "Todo text cannot be empty" := by
  simp only [validateTodoText]
  rw [if_pos h]

lemma validateTodoText_invalid_of_long {input : String}
    (h : (jsTrim input).length > MAX_TODO_LENGTH) :
    validateTodoText input = .invalid "Todo text cannot exceed 100 characters" := by
  simp only [validateTodoText]
  rw [if_neg (by intro he; rw [he] at h; simp [MAX_TODO_LENGTH] at h), if_pos h]

lemma isDuplicate_none_eq_false {text : String} {todos : List Todo} :
    isDuplicate text todos none = false ↔
      ∀ u ∈ todos, jsToLower u.text ≠ jsToLower text := by
  simp [isDuplicate, List.any_eq_false]

lemma isDuplicate_some_eq_false {text : String} {todos : List Todo} {e : String} :
    isDuplicate text todos (some e) = false ↔
      ∀ u ∈ todos, u.id = e ∨ jsToLower u.text ≠ jsToLower text := by
  simp only [isDuplicate, List.any_eq_false]
  constructor
  · intro h u hu
    have := h u hu
    simp at this
    by_cases hid : u.id = e
    · exact Or.inl hid
    · exact Or.inr (this (by simpa using hid))
  · intro h u hu
    rcases h u hu with h' | h' <;> simp [h']

/-! Bridges between the `findIndex`-based operations and their structural
equivalents `removeFirst` / `updateFirst`. -/

lemma findIdx?_cons_zero {p : Todo → Bool} {t : Todo} {ts : List Todo} :
    (t :: ts).findIdx? p =
      if p t then some 0 else (ts.findIdx? p).map (· + 1) := by
  rw [List.findIdx?_cons]
  split
  · rfl
  · exact List.findIdx?_succ

lemma removeFirst_of_findIdx_none {p : Todo → Bool} {l : List Todo}
    (h : l.findIdx? p = none) : removeFirst p l = l := by
  induction l with
  | nil => rfl
  | cons t ts ih =>
    rw [findIdx?_cons_zero] at h
    split at h
    · cases h
    · rename_i hp
      simp only [Option.map_eq_none'] at h
      simp [removeFirst, hp, ih h]

lemma eraseIdx_of_findIdx_some {p : Todo → Bool} {l : List Todo} {i : Nat}
    (h : l.findIdx? p = some i) : l.eraseIdx i = removeFirst p l := by
  induction l generalizing i with
  | nil => simp [List.findIdx?] at h
  | cons t ts ih =>
    rw [findIdx?_cons_zero] at h
    split at h
    · rename_i hp
      cases h
      simp [removeFirst, hp, List.eraseIdx_cons_zero]
    · rename_i hp
      simp only [Option.map_eq_some'] at h
      obtain ⟨j, hj, rfl⟩ := h
      simp [removeFirst, hp, List.eraseIdx_cons_succ, ih hj]

lemma deleteTodo_eq_removeFirst (id : String) (s : AppState) :
    deleteTodo id s = { s with todos := removeFirst (fun t => t.id == id) s.todos } := by
  simp only [deleteTodo]
  split
  · rename_i h
    rw [removeFirst_of_findIdx_none h]
  · rename_i i h
    rw [eraseIdx_of_findIdx_some h]

lemma modifyIdx_of_findIdx_some {p : Todo → Bool} {f : Todo → Todo} {l : List Todo}
    {i : Nat} (h : l.findIdx? p = some i) : modifyIdx f l i = updateFirst p f l := by
  induction l generalizing i with
  | nil => simp [List.findIdx?] at h
  | cons t ts ih =>
    rw [findIdx?_cons_zero] at h
    split at h
    · rename_i hp
      cases h
      simp [modifyIdx, updateFirst, hp]
    · rename_i hp
      simp only [Option.map_eq_some'] at h
      obtain ⟨j, hj, rfl⟩ := h
      simp [modifyIdx, updateFirst, hp, ih hj]

/-! Shape lemmas: each mutating operation either returns the state unchanged
or performs its documented successful effect. -/

lemma addTodo_success (input newId now : String) (s : AppState)
    (h1 : jsTrim input ≠ "") (h2 : (jsTrim input).length ≤ MAX_TODO_LENGTH)
    (h3 : isDuplicate (jsTrim input) s.todos = false) :
    addTodo input newId now s =
      { s with todos := { id := newId, text := jsTrim input, createdAt := now,
                          updatedAt := none, completed := false } :: s.todos } := by
  simp only [addTodo, validateTodoText_valid_of input h1 h2, h3]
  simp

lemma addTodo_cases (input newId now : String) (s : AppState) :
    addTodo input newId now s = s ∨
      (isDuplicate (jsTrim input) s.todos = false ∧
       addTodo input newId now s =
         { s with todos := { id := newId, text := jsTrim input, createdAt := now,
                             updatedAt := none, completed := false } :: s.todos }) := by
  simp only [addTodo]
  cases hv : validateTodoText input with
  | invalid e => exact Or.inl rfl
  | valid t =>
    obtain ⟨rfl, h1, h2⟩ := validateTodoText_valid_inv hv
    cases hd : isDuplicate (jsTrim input) s.todos with
    | true => simp [hd]
    | false =>
      refine Or.inr ⟨rfl, ?_⟩
      simp [hd]

lemma saveEdit_cases (id input now : String) (s : AppState) :
    saveEdit id input now s = s ∨
      (s.editingId = some id ∧
       isDuplicate (jsTrim input) s.todos (some id) = false ∧
       saveEdit id input now s =
         { todos := updateFirst (fun t => t.id == id)
             (fun t => { t with text := jsTrim input, updatedAt := some now })
             s.todos,
           editingId := none }) := by
  simp only [saveEdit]
  split
  · exact Or.inl rfl
  · rename_i hguard
    rw [not_not] at hguard
    cases hv : validateTodoText input with
    | invalid e => exact Or.inl rfl
    | valid t =>
      obtain ⟨rfl, h1, h2⟩ := validateTodoText_valid_inv hv
      cases hd : isDuplicate (jsTrim input) s.todos (some id) with
      | true => simp [hd]
      | false =>
        cases hf : s.todos.findIdx? (fun todo => todo.id == id) with
        | none => exact Or.inl (by simp [hd, hf])
        | some i =>
          refine Or.inr ⟨hguard, rfl, ?_⟩
          simp only [Bool.false_eq_true, if_false]
          rw [modifyIdx_of_findIdx_some hf, if_neg (by simp [hd])]

/-! Structural lemmas about `removeFirst` and `updateFirst`. -/

lemma removeFirst_sublist (p : Todo → Bool) (l : List Todo) :
    (removeFirst p l).Sublist l := by
  induction l with
  | nil => exact List.Sublist.refl []
  | cons t ts ih =>
    rw [removeFirst]
    split
    · exact List.sublist_cons_self t ts
    · exact List.Sublist.cons₂ t ih

lemma mem_removeFirst_of_not {p : Todo → Bool} {l : List Todo} {x : Todo}
    (hx : x ∈ l) (hpx : p x = false) : x ∈ removeFirst p l := by
  induction l with
  | nil => cases hx
  | cons t ts ih =>
    rw [removeFirst]
    rcases List.mem_cons.mp hx with rfl | hx'
    · rw [if_neg (by simp [hpx])]
      exact List.mem_cons_self x (removeFirst p ts)
    · split
      · exact hx'
      · exact List.mem_cons_of_mem t (ih hx')

lemma mem_updateFirst {p : Todo → Bool} {f : Todo → Todo} {l : List Todo} {v : Todo}
    (hv : v ∈ updateFirst p f l) : v ∈ l ∨ ∃ u ∈ l, p u = true ∧ v = f u := by
  induction l with
  | nil => cases hv
  | cons t ts ih =>
    rw [updateFirst] at hv
    split at hv
    · rename_i hp
      rcases List.mem_cons.mp hv with rfl | hv'
      · exact Or.inr ⟨t, List.mem_cons_self t ts, hp, rfl⟩
      · exact Or.inl (List.mem_cons_of_mem t hv')
    · rcases List.mem_cons.mp hv with rfl | hv'
      · exact Or.inl (List.mem_cons_self v ts)
      · rcases ih hv' with h | ⟨u, hu, hpu, rfl⟩
        · exact Or.inl (List.mem_cons_of_mem t h)
        · exact Or.inr ⟨u, List.mem_cons_of_mem t hu, hpu, rfl⟩

lemma updateFirst_map_id (p : Todo → Bool) (f : Todo → Todo)
    (hf : ∀ u, (f u).id = u.id) (l : List Todo) :
    (updateFirst p f l).map Todo.id = l.map Todo.id := by
  induction l with
  | nil => rfl
  | cons t ts ih =>
    rw [updateFirst]
    split
    · simp [hf t]
    · simp [ih]

lemma IdsNodup_iff_map {l : List Todo} :
    IdsNodup l ↔ List.Pairwise (· ≠ ·) (l.map Todo.id) := by
  simp [IdsNodup, List.pairwise_map]

lemma TextsNodup_updateFirst {id ntext now : String} {l : List Todo}
    (hids : IdsNodup l) (htx : TextsNodup l)
    (hno : ∀ u ∈ l, u.id = id ∨ jsToLower u.text ≠ jsToLower ntext) :
    TextsNodup (updateFirst (fun t => t.id == id)
      (fun t => { t with text := ntext, updatedAt := some now }) l) := by
  induction l with
  | nil => exact List.Pairwise.nil
  | cons t ts ih =>
    simp only [IdsNodup, List.pairwise_cons] at hids
    simp only [TextsNodup, List.pairwise_cons] at htx
    rw [updateFirst]
    by_cases hp : t.id = id
    · rw [if_pos (by simp [hp])]
      rw [TextsNodup, List.pairwise_cons]
      refine ⟨?_, htx.2⟩
      intro u hu
      rcases hno u (List.mem_cons_of_mem t hu) with h | h
      · exact absurd (hp.trans h.symm) (hids.1 u hu)
      · exact fun he => h he.symm
    · rw [if_neg (by simp [hp])]
      rw [TextsNodup, List.pairwise_cons]
      constructor
      · intro v hv
        rcases mem_updateFirst hv with h | ⟨u, hu, hpu, rfl⟩
        · exact htx.1 v h
        · simp only []
          rcases hno t (List.mem_cons_self t ts) with h | h
          · exact absurd h hp
          · exact h
      · exact ih hids.2 htx.2 (fun u hu => hno u (List.mem_cons_of_mem t hu))

/-! Preservation of the data-model invariant (unique ids, unique
case-insensitive texts) by every controller operation. -/

/-- The data-model invariant of spec §3 on a controller state. -/
def StateInv (s : AppState) : Prop :=
  IdsNodup s.todos ∧ TextsNodup s.todos

lemma StateInv_addTodo (input newId now : String) {s : AppState}
    (h : StateInv s) (hfresh : ∀ t ∈ s.todos, t.id ≠ newId) :
    StateInv (addTodo input newId now s) := by
  rcases addTodo_cases input newId now s with he | ⟨hd, he⟩
  · rw [he]; exact h
  · rw [he]
    constructor
    · rw [IdsNodup, List.pairwise_cons]
      exact ⟨fun u hu => (hfresh u hu).symm, h.1⟩
    · rw [TextsNodup, List.pairwise_cons]
      refine ⟨?_, h.2⟩
      intro u hu
      exact fun he2 => isDuplicate_none_eq_false.mp hd u hu he2.symm

lemma StateInv_deleteTodo (id : String) {s : AppState} (h : StateInv s) :
    StateInv (deleteTodo id s) := by
  rw [deleteTodo_eq_removeFirst]
  exact ⟨List.Pairwise.sublist (removeFirst_sublist _ _) h.1,
         List.Pairwise.sublist (removeFirst_sublist _ _) h.2⟩

lemma StateInv_saveEdit (id input now : String) {s : AppState} (h : StateInv s) :
    StateInv (saveEdit id input now s) := by
  rcases saveEdit_cases id input now s with he | ⟨hg, hd, he⟩
  · rw [he]; exact h
  · rw [he]
    constructor
    · rw [IdsNodup_iff_map]
      dsimp only
      rw [updateFirst_map_id (fun t => t.id == id)
        (fun t => { t with text := jsTrim input, updatedAt := some now }) (fun u => rfl)]
      exact IdsNodup_iff_map.mp h.1
    · exact TextsNodup_updateFirst h.1 h.2 (isDuplicate_some_eq_false.mp hd)

lemma StateInv_clearAll (confirmed : Bool) {s : AppState} (h : StateInv s) :
    StateInv (clearAll confirmed s) := by
  simp only [clearAll]
  split
  · exact h
  · split
    · exact ⟨List.Pairwise.nil, List.Pairwise.nil⟩
    · exact h

lemma reachable_stateInv {s : AppState} (h : Reachable s) : StateInv s := by
  induction h with
  | init => exact ⟨List.Pairwise.nil, List.Pairwise.nil⟩
  | add input newId now hs hfresh ih => exact StateInv_addTodo input newId now ih hfresh
  | del id hs ih => exact StateInv_deleteTodo id ih
  | start id hs hex ih => exact ih
  | save id input now hs ih => exact StateInv_saveEdit id input now ih
  | cancel hs ih => exact ih
  | clear confirmed hs ih => exact StateInv_clearAll confirmed ih

lemma editing_exists_addTodo (input newId now : String) {s : AppState}
    (ih : ∀ e, s.editingId = some e → ∃ t ∈ s.todos, t.id = e) :
    ∀ e, (addTodo input newId now s).editingId = some e →
      ∃ t ∈ (addTodo input newId now s).todos, t.id = e := by
  rcases addTodo_cases input newId now s with he | ⟨hd, he⟩
  · rw [he]; exact ih
  · rw [he]
    intro e he2
    obtain ⟨t, ht, hid⟩ := ih e he2
    exact ⟨t, List.mem_cons_of_mem _ ht, hid⟩

lemma editing_exists_deleteTodo (id : String) {s : AppState}
    (hne : s.editingId ≠ some id)
    (ih : ∀ e, s.editingId = some e → ∃ t ∈ s.todos, t.id = e) :
    ∀ e, (deleteTodo id s).editingId = some e →
      ∃ t ∈ (deleteTodo id s).todos, t.id = e := by
  rw [deleteTodo_eq_removeFirst]
  intro e he
  obtain ⟨t, ht, hid⟩ := ih e he
  have hne2 : e ≠ id := by
    intro h2
    exact hne (h2 ▸ he)
  refine ⟨t, mem_removeFirst_of_not ht ?_, hid⟩
  simp [hid, hne2]

lemma editing_exists_saveEdit (id input now : String) {s : AppState}
    (ih : ∀ e, s.editingId = some e → ∃ t ∈ s.todos, t.id = e) :
    ∀ e, (saveEdit id input now s).editingId = some e →
      ∃ t ∈ (saveEdit id input now s).todos, t.id = e := by
  rcases saveEdit_cases id input now s with he | ⟨hg, hd, he⟩
  · rw [he]; exact ih
  · rw [he]
    intro e he2
    cases he2

lemma editing_exists_clearAll (confirmed : Bool) {s : AppState}
    (ih : ∀ e, s.editingId = some e → ∃ t ∈ s.todos, t.id = e) :
    ∀ e, (clearAll confirmed s).editingId = some e →
      ∃ t ∈ (clearAll confirmed s).todos, t.id = e := by
  simp only [clearAll]
  split
  · exact ih
  · split
    · intro e he
      cases he
    · exact ih

/-! The `editingId`-reference invariant along deletion-safe runs. -/

lemma reachableSafe_editing_exists {s : AppState} (h : ReachableSafe s) :
    ∀ e, s.editingId = some e → ∃ t ∈ s.todos, t.id = e := by
  induction h with
  | init =>
    intro e he
    simp [initialState] at he
  | add input newId now hs hfresh ih => exact editing_exists_addTodo input newId now ih
  | del id hs hne ih => exact editing_exists_deleteTodo id hne ih
  | start id hs hex ih =>
    intro e he
    simp only [startEdit] at he
    cases he
    exact hex
  | save id input now hs ih => exact editing_exists_saveEdit id input now ih
  | cancel hs ih =>
    intro e he
    cases he
  | clear confirmed hs ih => exact editing_exists_clearAll confirmed ih

/-! The attribute escaper realises a per-character entity substitution. -/

lemma replaceAllChar_cons (c0 : Char) (rep : List Char) (c : Char) (cs : List Char) :
    replaceAllChar c0 rep (c :: cs) =
      (if c = c0 then rep else [c]) ++ replaceAllChar c0 rep cs := by
  simp [replaceAllChar, List.flatMap_cons]

lemma replaceAllChar_append (c0 : Char) (rep : List Char) (x xs : List Char) :
    replaceAllChar c0 rep (x ++ xs) =
      replaceAllChar c0 rep x ++ replaceAllChar c0 rep xs := by
  simp [replaceAllChar, List.flatMap_append]

lemma escList_eq (l : List Char) :
    replaceAllChar aposChar ['&', '#', '3', '9', ';']
      (replaceAllChar quoteChar ['&', 'q', 'u', 'o', 't', ';']
        (replaceAllChar '>' ['&', 'g', 't', ';']
          (replaceAllChar '<' ['&', 'l', 't', ';']
            (replaceAllChar '&' ['&', 'a', 'm', 'p', ';'] l)))) =
      l.flatMap entityOf := by
  induction l with
  | nil => rfl
  | cons c cs ih =>
    rw [replaceAllChar_cons, replaceAllChar_append, replaceAllChar_append,
        replaceAllChar_append, replaceAllChar_append, ih, List.flatMap_cons]
    congr 1
    by_cases h1 : c = '&'
    · subst h1; decide
    · by_cases h2 : c = '<'
      · subst h2; decide
      · by_cases h3 : c = '>'
        · subst h3; decide
        · by_cases h4 : c = quoteChar
          · subst h4; decide
          · by_cases h5 : c = aposChar
            · subst h5; decide
            · simp [replaceAllChar, entityOf, h1, h2, h3, h4, h5]

lemma escapeAttribute_data (text : String) :
    (escapeAttribute text).data = text.data.flatMap entityOf := by
  simp only [escapeAttribute]
  exact escList_eq text.data

lemma entityOf_safe {c x : Char} (hx : x ∈ entityOf c) :
    x ≠ '<' ∧ x ≠ '>' ∧ x ≠ quoteChar ∧ x ≠ aposChar := by
  unfold entityOf at hx
  split_ifs at hx with h1 h2 h3 h4 h5
  · simp at hx
    rcases hx with rfl | rfl | rfl | rfl | rfl <;> exact ⟨by decide, by decide, by decide, by decide⟩
  · simp at hx
    rcases hx with rfl | rfl | rfl | rfl <;> exact ⟨by decide, by decide, by decide, by decide⟩
  · simp at hx
    rcases hx with rfl | rfl | rfl | rfl <;> exact ⟨by decide, by decide, by decide, by decide⟩
  · simp at hx
    rcases hx with rfl | rfl | rfl | rfl | rfl | rfl <;>
      exact ⟨by decide, by decide, by decide, by decide⟩
  · simp at hx
    rcases hx with rfl | rfl | rfl | rfl | rfl <;> exact ⟨by decide, by decide, by decide, by decide⟩
  · simp at hx
    subst hx
    exact ⟨h2, h3, h4, h5⟩

/-! Decomposition lemmas at the first match, and the successful-save shape. -/

lemma isDuplicate_none_eq_true_of {text : String} {todos : List Todo}
    (h : ∃ u ∈ todos, jsToLower u.text = jsToLower text) :
    isDuplicate text todos none = true := by
  obtain ⟨u, hu, he⟩ := h
  simp only [isDuplicate, List.any_eq_true]
  exact ⟨u, hu, by simp [he]⟩

lemma removeFirst_no_match {p : Todo → Bool} {l : List Todo}
    (h : ∀ u ∈ l, p u = false) : removeFirst p l = l := by
  induction l with
  | nil => rfl
  | cons t ts ih =>
    rw [removeFirst, if_neg (by simp [h t (List.mem_cons_self t ts)]),
        ih (fun u hu => h u (List.mem_cons_of_mem t hu))]

lemma removeFirst_length_of_mem {p : Todo → Bool} {l : List Todo}
    (h : ∃ u ∈ l, p u = true) : (removeFirst p l).length + 1 = l.length := by
  induction l with
  | nil => simp at h
  | cons t ts ih =>
    rw [removeFirst]
    by_cases hp : p t
    · rw [if_pos hp]
      simp
    · rw [if_neg hp]
      obtain ⟨u, hu, hpu⟩ := h
      rcases List.mem_cons.mp hu with rfl | hu'
      · exact absurd hpu hp
      · simp only [List.length_cons]
        rw [ih ⟨u, hu', hpu⟩]

lemma removeFirst_id_not_mem (id : String) {l : List Todo} (hids : IdsNodup l) :
    ∀ t ∈ removeFirst (fun u => u.id == id) l, t.id ≠ id := by
  induction l with
  | nil => intro t ht; cases ht
  | cons t ts ih =>
    simp only [IdsNodup, List.pairwise_cons] at hids
    rw [removeFirst]
    by_cases hp : t.id = id
    · rw [if_pos (by simp [hp])]
      intro u hu he
      exact hids.1 u hu (hp.trans he.symm)
    · rw [if_neg (by simp [hp])]
      intro u hu
      rcases List.mem_cons.mp hu with rfl | hu'
      · exact hp
      · exact ih hids.2 u hu'

lemma findIdx?_append_first {p : Todo → Bool} (l1 l2 : List Todo) (t : Todo)
    (h1 : ∀ u ∈ l1, p u = false) (h2 : p t = true) :
    (l1 ++ t :: l2).findIdx? p = some l1.length := by
  induction l1 with
  | nil =>
    rw [List.nil_append, findIdx?_cons_zero, if_pos h2]
    rfl
  | cons u us ih =>
    rw [List.cons_append, findIdx?_cons_zero,
        if_neg (by simp [h1 u (List.mem_cons_self u us)]),
        ih (fun v hv => h1 v (List.mem_cons_of_mem u hv))]
    rfl

lemma modifyIdx_append (f : Todo → Todo) (l1 l2 : List Todo) (t : Todo) :
    modifyIdx f (l1 ++ t :: l2) l1.length = l1 ++ f t :: l2 := by
  induction l1 with
  | nil => rfl
  | cons u us ih =>
    simp only [List.cons_append, List.length_cons, modifyIdx]
    rw [show us.append (t :: l2) = us ++ t :: l2 from rfl, ih]

lemma removeFirst_append_first {p : Todo → Bool} (l1 l2 : List Todo) (t : Todo)
    (h1 : ∀ u ∈ l1, p u = false) (h2 : p t = true) :
    removeFirst p (l1 ++ t :: l2) = l1 ++ l2 := by
  induction l1 with
  | nil =>
    rw [List.nil_append, removeFirst, if_pos h2, List.nil_append]
  | cons u us ih =>
    rw [List.cons_append, removeFirst,
        if_neg (by simp [h1 u (List.mem_cons_self u us)]),
        ih (fun v hv => h1 v (List.mem_cons_of_mem u hv)), List.cons_append]

lemma saveEdit_success (id input now : String) (s : AppState) (l1 l2 : List Todo)
    (t : Todo) (hedit : s.editingId = some id) (hdecomp : s.todos = l1 ++ t :: l2)
    (hfirst : ∀ u ∈ l1, u.id ≠ id) (hid : t.id = id)
    (h1 : jsTrim input ≠ "") (h2 : (jsTrim input).length ≤ MAX_TODO_LENGTH)
    (hdup : isDuplicate (jsTrim input) s.todos (some id) = false) :
    saveEdit id input now s =
      { todos := l1 ++ { t with text := jsTrim input, updatedAt := some now } :: l2,
        editingId := none } := by
  have hfind : s.todos.findIdx? (fun todo => todo.id == id) = some l1.length := by
    rw [hdecomp]
    exact findIdx?_append_first l1 l2 t
      (fun u hu => by simp [hfirst u hu]) (by simp [hid])
  simp only [saveEdit]
  rw [if_neg (by simp [hedit]), validateTodoText_valid_of input h1 h2]
  simp only [hdup, Bool.false_eq_true, if_false, hfind]
  rw [hdecomp, modifyIdx_append]

/-! Claim theorems. -/

/-- C1: starting from the empty list, every controller operation (addTodo,
saveEdit, deleteTodo, clearAll, together with startEdit and cancelEdit, which
do not touch the list) preserves the invariant that no two todos in the list
have texts equal under case-insensitive comparison: every reachable state
satisfies `TextsNodup`. Reachability carries the uniqueness of generated ids
(spec §3), which the `saveEdit` duplicate check relies on. -/
theorem C1_no_duplicate_texts_invariant (s : AppState) (h : Reachable s) :
    TextsNodup s.todos :=
  (reachable_stateInv h).2

theorem C1_no_duplicate_texts_invariant_witness :
    Reachable (addTodo "Buy milk" "id1" "t0" initialState) ∧
    TextsNodup (addTodo "Buy milk" "id1" "t0" initialState).todos := by
  have hr : Reachable (addTodo "Buy milk" "id1" "t0" initialState) :=
    Reachable.add "Buy milk" "id1" "t0" Reachable.init (by decide)
  exact ⟨hr, C1_no_duplicate_texts_invariant _ hr⟩

/-- C2 counterexample: the claim states that deletion (deleteTodo) of the
referenced item clears `editingId`, and that in every reachable state a set
`editingId` references a present todo. But `deleteTodo` (script.js lines
476-485) never touches `editingId`: from the empty state, add an item, start
editing it, then delete it (`deleteTodo` is a public method on the app
object, reachable outside the per-item delete button). The resulting
reachable state has an empty list while `editingId` is still `some "id1"`. -/
theorem C2_counterexample_dangling_editingId :
    Reachable (deleteTodo "id1"
      (startEdit "id1" (addTodo "Buy milk" "id1" "t0" initialState))) ∧
    (deleteTodo "id1"
      (startEdit "id1" (addTodo "Buy milk" "id1" "t0" initialState))).editingId =
        some "id1" ∧
    (deleteTodo "id1"
      (startEdit "id1" (addTodo "Buy milk" "id1" "t0" initialState))).todos = [] := by
  refine ⟨?_, by decide, by decide⟩
  exact Reachable.del "id1"
    (Reachable.start "id1"
      (Reachable.add "Buy milk" "id1" "t0" Reachable.init (by decide))
      (by decide))

/-- C2 (amended): whenever `editingId` is set it references a present todo in
every state reachable without deleting the currently edited item; `editingId`
is cleared by a successful `saveEdit`, by `cancelEdit`, and by a confirmed
`clearAll` on a nonempty list — but `deleteTodo` never changes `editingId`,
so deleting the referenced item leaves it dangling. -/
theorem C2_amended_editing_reference (s : AppState) :
    (ReachableSafe s → ∀ e, s.editingId = some e → ∃ t ∈ s.todos, t.id = e) ∧
    (∀ id, (deleteTodo id s).editingId = s.editingId) ∧
    (cancelEdit s).editingId = none ∧
    (s.todos ≠ [] → (clearAll true s).editingId = none) ∧
    (∀ id input now l1 l2 t, s.editingId = some id → s.todos = l1 ++ t :: l2 →
      (∀ u ∈ l1, u.id ≠ id) → t.id = id → jsTrim input ≠ "" →
      (jsTrim input).length ≤ MAX_TODO_LENGTH →
      isDuplicate (jsTrim input) s.todos (some id) = false →
      (saveEdit id input now s).editingId = none) := by
  refine ⟨fun h => reachableSafe_editing_exists h, ?_, rfl, ?_, ?_⟩
  · intro id
    rw [deleteTodo_eq_removeFirst]
  · intro hne
    simp [clearAll, List.length_eq_zero, hne]
  · intro id input now l1 l2 t hedit hdecomp hfirst hid h1 h2 hdup
    rw [saveEdit_success id input now s l1 l2 t hedit hdecomp hfirst hid h1 h2 hdup]

theorem C2_amended_editing_reference_witness :
    (∃ t ∈ (startEdit "id1" (addTodo "Buy milk" "id1" "t0" initialState)).todos,
      t.id = "id1") ∧
    (deleteTodo "id9"
      (startEdit "id1" (addTodo "Buy milk" "id1" "t0" initialState))).editingId =
      (startEdit "id1" (addTodo "Buy milk" "id1" "t0" initialState)).editingId ∧
    (cancelEdit
      (startEdit "id1" (addTodo "Buy milk" "id1" "t0" initialState))).editingId =
        none ∧
    (clearAll true
      (startEdit "id1" (addTodo "Buy milk" "id1" "t0" initialState))).editingId =
        none ∧
    (saveEdit "id1" "Buy bread" "t1"
      (startEdit "id1" (addTodo "Buy milk" "id1" "t0" initialState))).editingId =
        none := by
  have h := C2_amended_editing_reference
    (startEdit "id1" (addTodo "Buy milk" "id1" "t0" initialState))
  have hrs : ReachableSafe
      (startEdit "id1" (addTodo "Buy milk" "id1" "t0" initialState)) :=
    ReachableSafe.start "id1"
      (ReachableSafe.add "Buy milk" "id1" "t0" ReachableSafe.init (by decide))
      (by decide)
  refine ⟨h.1 hrs "id1" rfl, h.2.1 "id9", h.2.2.1, h.2.2.2.1 (by decide), ?_⟩
  exact h.2.2.2.2 "id1" "Buy bread" "t1" []
    [{ id := "id1", text := "Buy milk", createdAt := "t0",
       updatedAt := none, completed := false }].tail
    { id := "id1", text := "Buy milk", createdAt := "t0",
      updatedAt := none, completed := false }
    rfl (by decide) (by decide) (by decide) (by decide) (by decide) (by decide)

/-- C3: for every input whose trimmed text has length 1 to 100 and is not a
case-insensitive duplicate of an existing todo, `addTodo` prepends exactly one
new item carrying the trimmed text with `completed = false`, so the length
grows by one and the new item is first. -/
theorem C3_addTodo_valid_prepends (input newId now : String) (s : AppState)
    (h1 : 1 ≤ (jsTrim input).length) (h2 : (jsTrim input).length ≤ MAX_TODO_LENGTH)
    (h3 : ∀ u ∈ s.todos, jsToLower u.text ≠ jsToLower (jsTrim input)) :
    (addTodo input newId now s).todos =
      { id := newId, text := jsTrim input, createdAt := now,
        updatedAt := none, completed := false } :: s.todos ∧
    (addTodo input newId now s).todos.length = s.todos.length + 1 := by
  have hne : jsTrim input ≠ "" := by
    intro he
    rw [he] at h1
    exact absurd h1 (by decide)
  have h := addTodo_success input newId now s hne h2 (isDuplicate_none_eq_false.mpr h3)
  rw [h]
  exact ⟨rfl, by simp⟩

theorem C3_addTodo_valid_prepends_witness :
    (addTodo "  Buy milk  " "id1" "t0" initialState).todos =
      { id := "id1", text := jsTrim "  Buy milk  ", createdAt := "t0",
        updatedAt := none, completed := false } :: initialState.todos ∧
    (addTodo "  Buy milk  " "id1" "t0" initialState).todos.length =
      initialState.todos.length + 1 :=
  C3_addTodo_valid_prepends "  Buy milk  " "id1" "t0" initialState
    (by decide) (by decide) (by decide)

/-- C4: for every input failing validation — trimmed empty, trimmed length
over 100, or a case-insensitive duplicate of an existing todo — `addTodo`
returns the state unchanged (in particular the todo list is untouched). -/
theorem C4_addTodo_invalid_noop (input newId now : String) (s : AppState)
    (h : jsTrim input = "" ∨ MAX_TODO_LENGTH < (jsTrim input).length ∨
         ∃ u ∈ s.todos, jsToLower u.text = jsToLower (jsTrim input)) :
    addTodo input newId now s = s := by
  rcases h with h | h | h
  · simp only [addTodo, validateTodoText_invalid_of_empty h]
  · simp only [addTodo, validateTodoText_invalid_of_long h]
  · simp only [addTodo]
    cases hv : validateTodoText input with
    | invalid e => rfl
    | valid t =>
      obtain ⟨rfl, h1, h2⟩ := validateTodoText_valid_inv hv
      dsimp only
      rw [if_pos (isDuplicate_none_eq_true_of h)]

theorem C4_addTodo_invalid_noop_witness :
    addTodo "   " "id2" "t1" initialState = initialState ∧
    addTodo "BUY MILK" "id2" "t1" (addTodo "Buy milk" "id1" "t0" initialState) =
      addTodo "Buy milk" "id1" "t0" initialState :=
  ⟨C4_addTodo_invalid_noop "   " "id2" "t1" initialState (Or.inl (by decide)),
   C4_addTodo_invalid_noop "BUY MILK" "id2" "t1"
     (addTodo "Buy milk" "id1" "t0" initialState)
     (Or.inr (Or.inr (by decide)))⟩

/-- C5 counterexample: the claim quantifies over every list and every id, but
`splice(findIndex(...), 1)` removes only the first matching index; on a list
whose two items share the id "x" (violating the generated-id uniqueness of
the data model), deleting "x" still leaves an item with id "x", contradicting
the claim's "no remaining item has that id". -/
theorem C5_counterexample_duplicate_ids :
    ((deleteTodo "x"
      { todos := [{ id := "x", text := "a", createdAt := "t0",
                    updatedAt := none, completed := false },
                  { id := "x", text := "b", createdAt := "t0",
                    updatedAt := none, completed := false }],
        editingId := none }).todos.any fun t => t.id == "x") = true ∧
    (deleteTodo "x"
      { todos := [{ id := "x", text := "a", createdAt := "t0",
                    updatedAt := none, completed := false },
                  { id := "x", text := "b", createdAt := "t0",
                    updatedAt := none, completed := false }],
        editingId := none }).todos.length = 1 := by
  exact ⟨by decide, by decide⟩

/-- C5 (amended): for every id and every state whose todo list has pairwise
distinct ids (the data-model invariant on generated ids): deleteTodo with an
absent id is a no-op, and deleteTodo with a present id decreases the length
by exactly one and leaves no item with that id. -/
theorem C5_deleteTodo_amended (id : String) (s : AppState)
    (hids : IdsNodup s.todos) :
    ((∀ t ∈ s.todos, t.id ≠ id) → deleteTodo id s = s) ∧
    ((∃ t ∈ s.todos, t.id = id) →
      (deleteTodo id s).todos.length + 1 = s.todos.length ∧
      ∀ t ∈ (deleteTodo id s).todos, t.id ≠ id) := by
  constructor
  · intro h
    simp only [deleteTodo]
    have hnone : s.todos.findIdx? (fun t => t.id == id) = none :=
      List.findIdx?_eq_none_iff.mpr (fun u hu => by simp [h u hu])
    rw [hnone]
  · rintro ⟨t, ht, hid⟩
    rw [deleteTodo_eq_removeFirst]
    exact ⟨removeFirst_length_of_mem ⟨t, ht, by simp [hid]⟩,
           removeFirst_id_not_mem id hids⟩

theorem C5_deleteTodo_amended_witness :
    (deleteTodo "id9" (addTodo "Buy bread" "id2" "t1"
      (addTodo "Buy milk" "id1" "t0" initialState)) =
      addTodo "Buy bread" "id2" "t1" (addTodo "Buy milk" "id1" "t0" initialState)) ∧
    ((deleteTodo "id1" (addTodo "Buy bread" "id2" "t1"
        (addTodo "Buy milk" "id1" "t0" initialState))).todos.length + 1 =
      (addTodo "Buy bread" "id2" "t1"
        (addTodo "Buy milk" "id1" "t0" initialState)).todos.length) := by
  have h9 := C5_deleteTodo_amended "id9"
    (addTodo "Buy bread" "id2" "t1" (addTodo "Buy milk" "id1" "t0" initialState))
    (by rw [IdsNodup]; decide)
  have h1 := C5_deleteTodo_amended "id1"
    (addTodo "Buy bread" "id2" "t1" (addTodo "Buy milk" "id1" "t0" initialState))
    (by rw [IdsNodup]; decide)
  exact ⟨h9.1 (by decide), (h1.2 (by decide)).1⟩

/-- C6: while editing the item with the given id, a saveEdit whose trimmed
new text equals (case-insensitively) the text of a different existing item is
rejected: the whole state is returned unchanged, so the edited item's text is
preserved, no item changes, and editingId stays set. -/
theorem C6_saveEdit_collision_rejected (id input now : String) (s : AppState)
    (hedit : s.editingId = some id)
    (hcol : ∃ u ∈ s.todos, u.id ≠ id ∧ jsToLower u.text = jsToLower (jsTrim input)) :
    saveEdit id input now s = s := by
  simp only [saveEdit]
  rw [if_neg (by simp [hedit])]
  cases hv : validateTodoText input with
  | invalid e => rfl
  | valid t =>
    obtain ⟨rfl, h1, h2⟩ := validateTodoText_valid_inv hv
    dsimp only
    have hdup : isDuplicate (jsTrim input) s.todos (some id) = true := by
      obtain ⟨u, hu, hne, he⟩ := hcol
      simp only [isDuplicate, List.any_eq_true]
      exact ⟨u, hu, by simp [hne, he]⟩
    rw [if_pos hdup]

theorem C6_saveEdit_collision_rejected_witness :
    saveEdit "id2" "buy MILK" "t2"
      (startEdit "id2" (addTodo "Buy bread" "id2" "t1"
        (addTodo "Buy milk" "id1" "t0" initialState))) =
      startEdit "id2" (addTodo "Buy bread" "id2" "t1"
        (addTodo "Buy milk" "id1" "t0" initialState)) :=
  C6_saveEdit_collision_rejected "id2" "buy MILK" "t2"
    (startEdit "id2" (addTodo "Buy bread" "id2" "t1"
      (addTodo "Buy milk" "id1" "t0" initialState)))
    rfl (by decide)

/-- C7: saveEdit of the edited item to its own current text succeeds: the
duplicate check excludes entries whose id equals the edited id and returns
false, the item keeps its (already trimmed) text, its updatedAt is set to
the new timestamp, and editingId is cleared. -/
theorem C7_saveEdit_self_text_succeeds (id now : String) (s : AppState)
    (l1 l2 : List Todo) (t : Todo)
    (hedit : s.editingId = some id) (hdecomp : s.todos = l1 ++ t :: l2)
    (hfirst : ∀ u ∈ l1, u.id ≠ id) (hid : t.id = id)
    (htrim : jsTrim t.text = t.text) (hne : t.text ≠ "")
    (hlen : t.text.length ≤ MAX_TODO_LENGTH)
    (hnodup : ∀ u ∈ s.todos, u.id ≠ id → jsToLower u.text ≠ jsToLower t.text) :
    isDuplicate t.text s.todos (some id) = false ∧
    saveEdit id t.text now s =
      { todos := l1 ++ { t with updatedAt := some now } :: l2,
        editingId := none } := by
  have hdup : isDuplicate t.text s.todos (some id) = false := by
    apply isDuplicate_some_eq_false.mpr
    intro u hu
    by_cases h : u.id = id
    · exact Or.inl h
    · exact Or.inr (hnodup u hu h)
  refine ⟨hdup, ?_⟩
  have h := saveEdit_success id t.text now s l1 l2 t hedit hdecomp hfirst hid
    (by rw [htrim]; exact hne) (by rw [htrim]; exact hlen) (by rw [htrim]; exact hdup)
  rw [h, htrim]

theorem C7_saveEdit_self_text_succeeds_witness :
    isDuplicate "Buy milk"
      (startEdit "id1" (addTodo "Buy milk" "id1" "t0" initialState)).todos
      (some "id1") = false ∧
    saveEdit "id1" "Buy milk" "t1"
      (startEdit "id1" (addTodo "Buy milk" "id1" "t0" initialState)) =
      { todos := [] ++ { id := "id1", text := "Buy milk", createdAt := "t0",
                         updatedAt := some "t1", completed := false } :: [],
        editingId := none } :=
  C7_saveEdit_self_text_succeeds "id1" "t1"
    (startEdit "id1" (addTodo "Buy milk" "id1" "t0" initialState))
    [] []
    { id := "id1", text := "Buy milk", createdAt := "t0",
      updatedAt := none, completed := false }
    rfl (by decide) (by decide) (by decide) (by decide) (by decide) (by decide)
    (by decide)

/-- C8: loading with a persisted value that is missing, unparsable as JSON
(the abstract `parse` returns `none` where `JSON.parse` would throw, and the
`try/catch` in `StorageService.load` converts that to the default), or parses
to a non-array (e.g. the JSON string "not-an-array") yields the empty list;
the embedding is a total function, mirroring that no exception escapes. -/
theorem C8_load_bad_values_yield_empty (parse : String → Option JValue)
    (raw : String) :
    TodoApp_loadTodos parse none = [] ∧
    (parse raw = none → TodoApp_loadTodos parse (some raw) = []) ∧
    (∀ v, parse raw = some v → (∀ l, v ≠ JValue.arr l) →
      TodoApp_loadTodos parse (some raw) = []) := by
  refine ⟨rfl, ?_, ?_⟩
  · intro hp
    by_cases hr : raw = ""
    · simp [TodoApp_loadTodos, StorageService_load, hr]
    · simp [TodoApp_loadTodos, StorageService_load, hr, hp]
  · intro v hp hv
    by_cases hr : raw = ""
    · simp [TodoApp_loadTodos, StorageService_load, hr]
    · simp only [TodoApp_loadTodos, StorageService_load, hr, hp, if_neg]
      cases v with
      | arr l => exact absurd rfl (hv l)
      | null => rfl
      | bool b => rfl
      | num n => rfl
      | str s2 => rfl
      | obj => rfl

theorem C8_load_bad_values_yield_empty_witness :
    TodoApp_loadTodos (fun _ => some (JValue.str "not-an-array")) none = [] ∧
    TodoApp_loadTodos (fun _ => none) (some "oops") = [] ∧
    TodoApp_loadTodos (fun _ => some (JValue.str "not-an-array"))
      (some "\"not-an-array\"") = [] := by
  have h1 := C8_load_bad_values_yield_empty
    (fun _ => some (JValue.str "not-an-array")) "\"not-an-array\""
  have h2 := C8_load_bad_values_yield_empty (fun _ => none) "oops"
  exact ⟨h1.1, h2.2.1 rfl,
         h1.2.2 (JValue.str "not-an-array") rfl (fun l h => JValue.noConfusion h)⟩

/-- C9: escapeAttribute performs exactly the per-character entity translation
(every occurrence of one of the five special characters is replaced by its
HTML entity — so every ampersand of the output is part of an emitted entity),
and the output contains no raw `<`, `>`, `"` or `'` character; hence a todo
text interpolated into the double-quoted value attribute of the edit field
cannot close the quote or the tag and so cannot break out of the attribute. -/
theorem C9_escapeAttribute_safe (text : String) :
    (escapeAttribute text).data = text.data.flatMap entityOf ∧
    ∀ x ∈ (escapeAttribute text).data,
      x ≠ '<' ∧ x ≠ '>' ∧ x ≠ quoteChar ∧ x ≠ aposChar := by
  refine ⟨escapeAttribute_data text, ?_⟩
  intro x hx
  rw [escapeAttribute_data text] at hx
  obtain ⟨c, _, hc⟩ := List.mem_flatMap.mp hx
  exact entityOf_safe hc

theorem C9_escapeAttribute_safe_witness :
    (escapeAttribute "\"><img src=x>").data =
      ("\"><img src=x>").data.flatMap entityOf ∧
    ('x' ≠ '<' ∧ 'x' ≠ '>' ∧ 'x' ≠ quoteChar ∧ 'x' ≠ aposChar) :=
  ⟨(C9_escapeAttribute_safe "\"><img src=x>").1,
   (C9_escapeAttribute_safe "\"><img src=x>").2 'x' (by decide)⟩

/-- C10: frame conditions. A successful addTodo yields the new item consed
onto the unchanged old list; deleteTodo removes exactly the first item
matching the id, keeping every other item and their order; a successful
saveEdit replaces only the target item, changing only its text and updatedAt
fields (the record update keeps id, createdAt, completed), keeping every
other item, the order, and hence the length. -/
theorem C10_frame_conditions (input newId now id : String) (s : AppState)
    (l1 l2 : List Todo) (t : Todo) :
    (jsTrim input ≠ "" → (jsTrim input).length ≤ MAX_TODO_LENGTH →
      isDuplicate (jsTrim input) s.todos = false →
      (addTodo input newId now s).todos =
        { id := newId, text := jsTrim input, createdAt := now,
          updatedAt := none, completed := false } :: s.todos) ∧
    (s.todos = l1 ++ t :: l2 → (∀ u ∈ l1, u.id ≠ id) → t.id = id →
      (deleteTodo id s).todos = l1 ++ l2) ∧
    (s.editingId = some id → s.todos = l1 ++ t :: l2 → (∀ u ∈ l1, u.id ≠ id) →
      t.id = id → jsTrim input ≠ "" → (jsTrim input).length ≤ MAX_TODO_LENGTH →
      isDuplicate (jsTrim input) s.todos (some id) = false →
      saveEdit id input now s =
        { todos := l1 ++ { t with text := jsTrim input, updatedAt := some now } :: l2,
          editingId := none }) := by
  refine ⟨?_, ?_, ?_⟩
  · intro h1 h2 h3
    rw [addTodo_success input newId now s h1 h2 h3]
  · intro hdecomp hfirst hid
    rw [deleteTodo_eq_removeFirst]
    dsimp only
    rw [hdecomp]
    exact removeFirst_append_first l1 l2 t
      (fun u hu => by simp [hfirst u hu]) (by simp [hid])
  · intro hedit hdecomp hfirst hid h1 h2 hdup
    exact saveEdit_success id input now s l1 l2 t hedit hdecomp hfirst hid h1 h2 hdup

theorem C10_frame_conditions_witness :
    ((addTodo "Get milk" "id3" "t2"
      (startEdit "id1" (addTodo "Buy bread" "id2" "t1"
        (addTodo "Buy milk" "id1" "t0" initialState)))).todos =
      { id := "id3", text := jsTrim "Get milk", createdAt := "t2",
        updatedAt := none, completed := false } ::
      (startEdit "id1" (addTodo "Buy bread" "id2" "t1"
        (addTodo "Buy milk" "id1" "t0" initialState))).todos) ∧
    ((deleteTodo "id1"
      (startEdit "id1" (addTodo "Buy bread" "id2" "t1"
        (addTodo "Buy milk" "id1" "t0" initialState)))).todos =
      [{ id := "id2", text := "Buy bread", createdAt := "t1",
         updatedAt := none, completed := false }] ++ []) ∧
    (saveEdit "id1" "Get milk" "t2"
      (startEdit "id1" (addTodo "Buy bread" "id2" "t1"
        (addTodo "Buy milk" "id1" "t0" initialState))) =
      { todos := [{ id := "id2", text := "Buy bread", createdAt := "t1",
                    updatedAt := none, completed := false }] ++
        { id := "id1", text := jsTrim "Get milk", createdAt := "t0",
          updatedAt := some "t2", completed := false } :: [],
        editingId := none }) := by
  have h := C10_frame_conditions "Get milk" "id3" "t2" "id1"
    (startEdit "id1" (addTodo "Buy bread" "id2" "t1"
      (addTodo "Buy milk" "id1" "t0" initialState)))
    [{ id := "id2", text := "Buy bread", createdAt := "t1",
       updatedAt := none, completed := false }] []
    { id := "id1", text := "Buy milk", createdAt := "t0",
      updatedAt := none, completed := false }
  refine ⟨h.1 (by decide) (by decide) (by decide), ?_, ?_⟩
  · exact h.2.1 (by decide) (by decide) (by decide)
  · exact h.2.2 rfl (by decide) (by decide) (by decide) (by decide)
      (by decide) (by decide)

end MyTodo
